import Mathlib

/-!
Shallow embedding of the date-driven list/card reconciliation and statistics
engine of the trebis browser extension (src/src/utils.ts and the Trebis class
of src/src/TrelloUI.ts), together with proofs about the claims on that code.

Modelling conventions:
* A JavaScript `Date` object is either an Invalid Date (internal time value
  NaN) or a valid date carrying its millisecond timestamp; all dates built by
  the code under study are local-midnight dates, and the model identifies
  local time with UTC (the code never mixes time zones).
* A nullable `Date` variable is an `Option JSDate`; `none` is JS `null`.
  Note that an Invalid Date is truthy in JS while `null` is falsy, which the
  definitions below reproduce.
* `Number(s)` conversion is modelled for the grammar that date components can
  take here (optionally signed decimal integers, surrounding whitespace,
  empty string gives 0); the exotic Number forms (hex, exponent, Infinity)
  are not modelled.
* JS statements that would throw a TypeError (calling a method on `null`)
  are modelled with `Except Unit`, `.error ()` being the thrown exception.
-/

/-- Days since 1970-01-01 of the proleptic Gregorian date (y, m, d) with
month m given 1-based.  Standard civil-from-days arithmetic. -/
def daysFromCivil (y m d : Int) : Int :=
  let y := if m ≤ 2 then y - 1 else y
  let era := Int.fdiv y 400
  let yoe := y - era * 400
  let mp := Int.fmod (m + 9) 12
  let doy := Int.fdiv (153 * mp + 2) 5 + d - 1
  let doe := yoe * 365 + Int.fdiv yoe 4 - Int.fdiv yoe 100 + doy
  era * 146097 + doe - 719468

/-- Inverse of daysFromCivil: (year, month 1-based, day) of a day number. -/
def civilFromDays (z : Int) : Int × Int × Int :=
  let z := z + 719468
  let era := Int.fdiv z 146097
  let doe := z - era * 146097
  let yoe := Int.fdiv (doe - Int.fdiv doe 1460 + Int.fdiv doe 36524 - Int.fdiv doe 146096) 365
  let y := yoe + era * 400
  let doy := doe - (365 * yoe + Int.fdiv yoe 4 - Int.fdiv yoe 100)
  let mp := Int.fdiv (5 * doy + 2) 153
  let d := doy - Int.fdiv (153 * mp + 2) 5 + 1
  let m := if mp < 10 then mp + 3 else mp - 9
  (if m ≤ 2 then y + 1 else y, m, d)

/-- A JavaScript Date object: Invalid Date (time value NaN) or a valid
millisecond timestamp. -/
inductive JSDate where
  | invalid : JSDate
  | valid (t : Int) : JSDate
  deriving DecidableEq, Repr

/-- Milliseconds per day (3600 * 24 * 1000 in the source). -/
def dayMs : Int := 86400000

/-- The ECMAScript TimeClip bound: time values beyond 8.64e15 ms are NaN. -/
def timeClipBound : Int := 8640000000000000

/-- ECMAScript MakeDay (in days): year y, 0-based month m (any integer,
normalized by rolling into the year), day d (1-based, rolled over). -/
def jsMakeDay (y m d : Int) : Int :=
  let ym := y + Int.fdiv m 12
  let mm := Int.fmod m 12
  daysFromCivil ym (mm + 1) 1 + (d - 1)

/-- The `new Date(year, month, day)` constructor: years 0..99 are mapped to
1900..1999, the result is clipped to the representable range. -/
def jsNewDate (y m d : Int) : JSDate :=
  let yr := if 0 ≤ y ∧ y ≤ 99 then 1900 + y else y
  let t := jsMakeDay yr m d * dayMs
  if t.natAbs ≤ timeClipBound.natAbs then .valid t else .invalid

/-- `new Date(y, m, d)` where any argument may be NaN (`none`), in which case
the result is an Invalid Date. -/
def jsNewDateO : Option Int → Option Int → Option Int → JSDate
  | some y, some m, some d => jsNewDate y m d
  | _, _, _ => .invalid

/-- (year, month 1-based, day) fields of a valid timestamp. -/
def jsDateFields (t : Int) : Int × Int × Int :=
  civilFromDays (Int.fdiv t dayMs)

/-- `date.getFullYear()`: NaN (none) on an Invalid Date. -/
def jsGetFullYear : JSDate → Option Int
  | .invalid => none
  | .valid t => some (jsDateFields t).1

/-- `date.getMonth()` (0-based): NaN (none) on an Invalid Date. -/
def jsGetMonth : JSDate → Option Int
  | .invalid => none
  | .valid t => some ((jsDateFields t).2.1 - 1)

/-- `date.getDate()` (day of month): NaN (none) on an Invalid Date. -/
def jsGetDate : JSDate → Option Int
  | .invalid => none
  | .valid t => some (jsDateFields t).2.2

/-- `date.setFullYear(y)`: per ECMAScript, a NaN time value is first replaced
by +0; a NaN year argument makes the date invalid; the result is clipped. -/
def jsSetFullYear (dt : JSDate) (y : Option Int) : JSDate :=
  match y with
  | none => .invalid
  | some y =>
    let t := match dt with | .invalid => 0 | .valid t => t
    let f := jsDateFields t
    let t2 := jsMakeDay y (f.2.1 - 1) f.2.2 * dayMs
    if t2.natAbs ≤ timeClipBound.natAbs then .valid t2 else .invalid

/-- ToNumber of a nullable Date in a JS arithmetic/relational context:
`null` coerces to 0, an Invalid Date to NaN (`none`). -/
def jsDateNum : Option JSDate → Option Int
  | none => some 0
  | some .invalid => none
  | some (.valid t) => some t

/-- JS `a < b` on nullable dates; false whenever NaN is involved. -/
def jsLtO (a b : Option JSDate) : Bool :=
  match jsDateNum a, jsDateNum b with
  | some x, some y => x < y
  | _, _ => false

/-- JS `a <= b` on nullable dates; false whenever NaN is involved. -/
def jsLeO (a b : Option JSDate) : Bool :=
  match jsDateNum a, jsDateNum b with
  | some x, some y => x ≤ y
  | _, _ => false

/-- JS `a > b` on nullable dates; false whenever NaN is involved. -/
def jsGtO (a b : Option JSDate) : Bool :=
  match jsDateNum a, jsDateNum b with
  | some x, some y => y < x
  | _, _ => false

/-- Whitespace for trimming (the JS whitespace characters that can occur in
the strings handled here). -/
def wspaceChar (c : Char) : Bool :=
  (c == ' ') || (c == '\t') || (c == '\n') || (c == '\r')

/-- Trim surrounding whitespace (structural model of String.trim). -/
def strTrim (s : String) : String :=
  ⟨((s.data.dropWhile wspaceChar).reverse.dropWhile wspaceChar).reverse⟩

/-- JS String.prototype.split with a single-character separator (the only
kind the code under study uses: '.', '-' and ' '). -/
def splitOnC (sep : Char) : List Char → List (List Char)
  | [] => [[]]
  | c :: rest =>
    let r := splitOnC sep rest
    if c == sep then [] :: r
    else
      match r with
      | h :: t => (c :: h) :: t
      | [] => [[c]]

def strSplitOnC (s : String) (sep : Char) : List String :=
  (splitOnC sep s.data).map (fun l => ⟨l⟩)

/-- JS String.prototype.includes for a single character. -/
def strContainsC (s : String) (c : Char) : Bool :=
  s.data.contains c

/-- `Number(s)` for the strings that arise as date components: surrounding
whitespace is ignored, an empty remainder gives 0, an optionally signed
nonempty digit string gives its value, everything else is NaN (`none`). -/
def jsDigits : List Char → Option Int
  | [] => none
  | l => if l.all Char.isDigit then some (Int.ofNat (l.foldl (fun a c => a * 10 + (c.toNat - 48)) 0)) else none

def jsNumber (s : String) : Option Int :=
  let t := strTrim s
  if t = "" then some 0
  else match t.data with
    | '+' :: rest => jsDigits rest
    | '-' :: rest => (jsDigits rest).map Int.neg
    | l => jsDigits l

namespace TREBIS

/-- `date.replace(/,|\//g, '.')` at the top of TREBIS.getDate: each ','
or '/' character is replaced by '.'. -/
def normDate (s : String) : String :=
  ⟨s.data.map (fun c => if c == ',' || c == '/' then '.' else c)⟩

/-- `Number()` conversion of the split components exactly as the loop in
TREBIS.getDate does it: the first NaN component makes the parse fail. -/
def numList : List String → Option (List Int)
  | [] => some []
  | p :: ps =>
    match jsNumber p with
    | none => none
    | some v => (numList ps).map (v :: ·)

/-- The non-range path of TREBIS.getDate (src/src/utils.ts lines 42-65),
applied to an already comma/slash-normalized string.  `cy` is the current
calendar year `(new Date()).getFullYear()`.  Faithful details: the
undefined-guard tests both of the first two split entries (the first entry
of a split is never undefined, so it cannot fire); the month decrement hits
index 1, which always exists after the year push; the year adjustment only
happens when index 2 exists and holds a value below 2000; the result is the
(possibly Invalid) Date object, never null, once the numeric checks pass. -/
def getDateFrag (cy : Int) (s : String) : Option JSDate :=
  let parts := strSplitOnC s (if strContainsC s '.' then '.' else '-')
  if parts.get? 0 = none ∧ parts.get? 1 = none then none
  else
    match numList parts with
    | none => none
    | some vals =>
      let vals := if vals.length < 3 then vals ++ [cy] else vals
      let vals := vals.set 1 (vals.getD 1 0 - 1)
      let vals := if 3 ≤ vals.length ∧ vals.getD 2 0 < 2000 then vals.set 2 (vals.getD 2 0 + 2000) else vals
      some (jsNewDateO (vals.get? 2) (vals.get? 1) (vals.get? 0))

/-- TREBIS.getDate (src/src/utils.ts lines 23-66).  When the normalized text
contains both '.' and '-' it is split on '-' and each fragment is parsed by
the recursive call; since a fragment contains no '-' (and no ',' or '/'),
that recursive call reduces to the non-range path `getDateFrag`, and the
last truthy result wins (`if (date) res = date`). -/
def getDate (cy : Int) (s : String) : Option JSDate :=
  let t := normDate s
  if strContainsC t '.' && strContainsC t '-' then
    (strSplitOnC t '-').foldl
      (fun res frag => match getDateFrag cy frag with
        | none => res
        | some d => some d) none
  else getDateFrag cy t

/-- TREBIS.isEqualDate (src/src/utils.ts lines 10-16): component-wise
equality of day, month and full year; NaN components never compare equal. -/
def isEqualDate (d1 d2 : JSDate) : Bool :=
  match d1, d2 with
  | .valid t1, .valid t2 =>
    ((jsDateFields t1).2.2 == (jsDateFields t2).2.2) &&
    ((jsDateFields t1).2.1 == (jsDateFields t2).2.1) &&
    ((jsDateFields t1).1 == (jsDateFields t2).1)
  | _, _ => false

/-- isEqualDate lifted to the guarded nullable call sites. -/
def isEqualDateO (d1 d2 : Option JSDate) : Bool :=
  match d1, d2 with
  | some a, some b => isEqualDate a b
  | _, _ => false

/-- Two-digit zero padding used by TREBIS.date. -/
def pad2 (n : Int) : String :=
  if n < 10 then "0" ++ toString n else toString n

/-- TREBIS.date (src/src/utils.ts lines 74-96) with isFullYear = false:
formats `new Date(time)` as DD.MM.(Y-2000).  A clipped (invalid) time value
formats as the JS string "NaN.NaN.NaN". -/
def date (time : Int) : String :=
  if time.natAbs ≤ timeClipBound.natAbs then
    let f := jsDateFields time
    pad2 f.2.2 ++ "." ++ pad2 f.2.1 ++ "." ++ toString (f.1 - 2000)
  else "NaN.NaN.NaN"

/-- TREBIS.getDayInSec (src/src/utils.ts lines 158-160). -/
def getDayInSec (day : Int) : Int := 3600 * 24 * 1000 * day

/-- A character excluded by the regex character class `[^( |\n)]`. -/
def linkStopChar (c : Char) : Bool :=
  (c == '(') || (c == ' ') || (c == '|') || (c == '\n') || (c == ')')

/-- Whether the char list starts with the given lowercase pattern,
case-insensitively. -/
def frontMatchCI : List Char → List Char → Bool
  | _, [] => true
  | [], _ :: _ => false
  | a :: as, b :: bs => (a.toLower == b) && frontMatchCI as bs

/-- One position of the regex `(http|s:\/\/)[^( |\n)]+` (case-insensitive):
the alternative followed by at least one non-stop character. -/
def linkAt (l : List Char) : Bool :=
  (frontMatchCI l ['h', 't', 't', 'p'] &&
    match l.drop 4 with | c :: _ => !linkStopChar c | [] => false) ||
  (frontMatchCI l ['s', ':', '/', '/'] &&
    match l.drop 4 with | c :: _ => !linkStopChar c | [] => false)

def linkSearch : List Char → Bool
  | [] => false
  | c :: rest => linkAt (c :: rest) || linkSearch rest

/-- TREBIS.isLink (src/src/utils.ts lines 123-128): the text is truthy and
matches `/((http|s:\/\/)[^( |\n)]+)/umig` somewhere. -/
def isLink (text : String) : Bool :=
  if text = "" then false else linkSearch text.data

end TREBIS

/-- Pattern occurs at the front of the list. -/
def frontMatch : List Char → List Char → Bool
  | _, [] => true
  | [], _ :: _ => false
  | a :: as, b :: bs => (a == b) && frontMatch as bs

/-- Pattern occurs somewhere in the list (JS String.prototype.includes). -/
def occursIn : List Char → List Char → Bool
  | l, pat => frontMatch l pat || match l with
    | [] => false
    | _ :: rest => occursIn rest pat

/-- JS `s.includes(pat)`. -/
def strIncludes (s pat : String) : Bool := occursIn s.data pat.data

/-- A label on a card: a color name and a service-assigned id. -/
structure TLabel where
  color : String
  id : String
  deriving DecidableEq, Repr

/-- A card: identifier, name, description and labels
(ITrelloCardData fields used by the core). -/
structure TCard where
  id : String
  name : String
  desc : String
  labels : List TLabel
  deriving DecidableEq, Repr

/-- A list with its already-fetched open cards (ITrelloListData with the
cards attached, as getLists(boardId, {cards: 'open'}) returns them). -/
structure TList where
  id : String
  name : String
  cards : List TCard
  deriving DecidableEq, Repr

/-- ITrebisListId: identifier plus position of the list in the collection. -/
structure TListId where
  id : String
  index : Nat
  deriving DecidableEq, Repr

namespace Trebis

/-- The walk of Trebis.getListId (src/src/TrelloUI.ts lines 392-404):
first match wins, matching by literal name equality or by day-equality of
the two parsed dates when both parses are truthy. -/
def getListIdGo (cy : Int) (parseName : Option JSDate) (name : String) :
    List TList → Nat → Option TListId
  | [], _ => none
  | list :: rest, index =>
    let parseListName := TREBIS.getDate cy list.name
    if name == list.name ||
        (parseListName.isSome && parseName.isSome && TREBIS.isEqualDateO parseListName parseName)
    then some ⟨list.id, index⟩
    else getListIdGo cy parseName name rest (index + 1)

/-- Trebis.getListId: `cy` is the current year used by the date parser. -/
def getListId (cy : Int) (lists : List TList) (name : String) : Option TListId :=
  getListIdGo cy (TREBIS.getDate cy name) name lists 0

/-- The backward do-while search of Trebis.initListId (src/src/TrelloUI.ts
lines 423-431): probe `utils.date(Date.now() - utils.getDayInSec(day))` for
day = 1, 2, ...; after each probe day is incremented and the loop breaks
once day exceeds 25 or the probe succeeded.  Returns the found list id (the
final value of this.lastListId) together with the number of probes made.
The fuel argument is 26 - day and never reaches 0 from the real entry point
(day = 1, fuel = 25). -/
def searchGo (cy now : Int) (lists : List TList) : Nat → Nat → Option TListId × Nat
  | _, 0 => (none, 0)
  | day, fuel + 1 =>
    let probe := getListId cy lists (TREBIS.date (now - TREBIS.getDayInSec day))
    if probe.isSome || day + 1 > 25 then (probe, 1)
    else
      let r := searchGo cy now lists (day + 1) fuel
      (r.1, r.2 + 1)

/-- The whole backward search: start at day 1 with enough fuel for the
25-day bound. -/
def initListIdSearch (cy now : Int) (lists : List TList) : Option TListId × Nat :=
  searchGo cy now lists 1 25

/-- `difference >= 15767993085` (false when difference is NaN). -/
def thresholdHit : Option Int → Bool
  | some x => 15767993085 ≤ x
  | none => false

/-- Trebis.getCorrectDate (src/src/TrelloUI.ts lines 547-561).  Returns the
pair (returned value, final state of the object passed as thisDate): the
function returns the very object it received (`const date = thisDate`), so
both components always coincide, and `date.setFullYear(...)` mutates the
caller's object in place.  `.error ()` is the TypeError thrown when the
threshold branch dereferences a null date. -/
def getCorrectDate (oldDate thisDate : Option JSDate) :
    Except Unit (Option JSDate × Option JSDate) :=
  if oldDate = none ∧ thisDate = none then .ok (none, none)
  else
    let difference : Option Int := do
      let a ← jsDateNum oldDate
      let b ← jsDateNum thisDate
      pure (a - b)
    let difference := difference.map (fun x => x * (if x < 0 then -1 else 1))
    if thresholdHit difference then
      match thisDate, oldDate with
      | some dt, some od =>
        let nd := jsSetFullYear dt (jsGetFullYear od)
        .ok (some nd, some nd)
      | _, _ => .error ()
    else .ok (thisDate, thisDate)

/-- `list.name.split(list.name.includes('.') ? '.' : '-').length`, the
component count used by the year-rollover branch of getStatistic. -/
def splitLen (name : String) : Nat :=
  (strSplitOnC name (if strContainsC name '.' then '.' else '-')).length

/-- The year-rollover fixup inside the getStatistic loop (src/src/TrelloUI.ts
lines 595-601): when the previous resolved date is truthy and strictly
before the (already corrected) current date, and the list name has fewer
than three components, the current date's year is set to the previous
date's year minus one, mutating listDate in place; on a null listDate the
setFullYear call would throw. -/
def statDateFix (name : String) (old listDate : Option JSDate) :
    Except Unit (Option JSDate) :=
  match old with
  | none => .ok listDate
  | some od =>
    if jsLtO (some od) listDate then
      if splitLen name < 3 then
        match listDate with
        | none => .error ()
        | some dt => .ok (some (jsSetFullYear dt ((jsGetFullYear od).map (· - 1))))
      else .ok listDate
    else .ok listDate

/-- Date resolution of one getStatistic loop iteration (src/src/TrelloUI.ts
lines 591-601): parse the list name, apply getCorrectDate when both the
previous and the parsed date are truthy, then the year-rollover fixup. -/
def statStepDate (cy : Int) (old : Option JSDate) (name : String) :
    Except Unit (Option JSDate) := do
  let listDate := TREBIS.getDate cy name
  let listDate ←
    if old.isSome && listDate.isSome then
      (getCorrectDate old listDate).map Prod.fst
    else pure listDate
  statDateFix name old listDate

/-- The running {red, yellow, blue, green} counters (ITrebisStatistic). -/
structure Stat where
  red : Nat
  yellow : Nat
  blue : Nat
  green : Nat
  deriving DecidableEq, Repr

/-- `res[label.color] += 1`, reachable only for the four tracked colors. -/
def bumpStat (s : Stat) (color : String) : Stat :=
  if color == "red" then { s with red := s.red + 1 }
  else if color == "yellow" then { s with yellow := s.yellow + 1 }
  else if color == "blue" then { s with blue := s.blue + 1 }
  else if color == "green" then { s with green := s.green + 1 }
  else s

/-- Per-card counting in getStatistic (lines 611-615, the isSaveOnServer
branch aside, which never touches `res`). -/
def countCard (res : Stat) (c : TCard) : Stat :=
  c.labels.foldl
    (fun r l => if ["green", "blue", "red", "yellow"].contains l.color then bumpStat r l.color else r)
    res

/-- The list scan of Trebis.getStatistic (src/src/TrelloUI.ts lines 590-659)
carrying the isStart flag, the previous resolved date and the counters. -/
def statLoop (cy : Int) (startValue endValue : String) (startDate endDate : Option JSDate) :
    List TList → Bool → Option JSDate → Stat → Except Unit Stat
  | [], _, _, res => .ok res
  | list :: rest, isStart, old, res => do
    let listDate ← statStepDate cy old list.name
    let isStart := isStart ||
      (list.name == endValue ||
        (endDate.isSome && listDate.isSome && jsLeO listDate endDate))
    if startDate.isSome && listDate.isSome && jsGtO startDate listDate then
      .ok res
    else
      let res := if isStart then list.cards.foldl countCard res else res
      if list.name == startValue ||
          (startDate.isSome && listDate.isSome && TREBIS.isEqualDateO startDate listDate) then
        .ok res
      else
        statLoop cy startValue endValue startDate endDate rest isStart listDate res

/-- Trebis.getStatistic (src/src/TrelloUI.ts lines 567-670) for a resolved
board whose lists (with their open cards) are `lists`; the returned value is
the `res` counter object.  The isSaveOnServer bookkeeping writes only to
serverApiData and never to `res`, so it is not modelled. -/
def getStatistic (cy : Int) (lists : List TList) (startValue endValue : String) :
    Except Unit Stat :=
  statLoop cy startValue endValue
    (TREBIS.getDate cy startValue) (TREBIS.getDate cy endValue)
    lists false none ⟨0, 0, 0, 0⟩

/-- One request issued to the board service during card migration. -/
inductive Action where
  | updateReq (cardId name desc : String)
  | copyReq (idList name desc copyId : String)
  | addLabelReq (cardId labelId : String)
  deriving DecidableEq, Repr

def Action.isUpdateReq : Action → Bool
  | .updateReq _ _ _ => true
  | _ => false

/-- Responses of the external board service during one migration run:
the card returned by a successful updateCard call (none = failure or no
data), and the id of the card created by copyCard keyed by the source card
id (none = `req.data.id || null` was null). -/
structure Env where
  updateResult : String → Option TCard
  copyResult : String → Option String

/-- The id map built by initLabels, restricted to the two colors the
migration path uses. -/
structure LabelIds where
  yellow : String
  red : String

/-- The markdown link line prepended to a card description. -/
def linkLine (tok : String) : String :=
  "[Ссылка на задачу](" ++ tok ++ ")\n"

/-- One step of the names.forEach hyperlink fold (src/src/TrelloUI.ts lines
472-478): state is (accumulated desc, isUpdatedCard). -/
def linkStepF (acc : String × Bool) (tok : String) : String × Bool :=
  if TREBIS.isLink tok && !strIncludes acc.1 tok then (linkLine tok ++ acc.1, true) else acc

/-- The whole hyperlink-annotation block guarded by `if (data.name)`. -/
def buildLinkDesc (name desc : String) : String × Bool :=
  if name == "" then (desc, false)
  else (strSplitOnC name ' ').foldl linkStepF (desc, false)

/-- The card actually inspected after the conditional updateCard call
(lines 480-485): the response card replaces lastCard only when the update
was issued and succeeded with data. -/
def effCard (env : Env) (c : TCard) : TCard :=
  if (buildLinkDesc c.name c.desc).2 then
    match env.updateResult c.id with
    | some d => d
    | none => c
  else c

/-- The label scan of lines 486-497: returns (addedCard, addedLabels); a
green or blue label aborts the scan, discarding the collected labels, and
red labels are never collected. -/
def collectLabels : List TLabel → Bool × List String
  | [] => (true, [])
  | l :: ls =>
    if l.color == "green" || l.color == "blue" then (false, [])
    else
      match collectLabels ls with
      | (false, _) => (false, [])
      | (true, acc) => (true, if l.color == "red" then acc else l.id :: acc)

/-- The body of the `for (let lastCard of lastCards)` loop of
Trebis.updateCard (src/src/TrelloUI.ts lines 465-517) for one yesterday
card: returns the cardCount increment and the requests issued.  Note that
cardCount++ is unconditional once a migration is attempted: createCard
(lines 434-444) merely logs when `req.data.id || null` is null. -/
def processCard (env : Env) (labels : LabelIds) (thisId : String)
    (thisCards : List TCard) (c : TCard) : Nat × List Action :=
  let built := buildLinkDesc c.name c.desc
  let updActs : List Action :=
    if built.2 then [.updateReq c.id c.name built.1] else []
  let lastCard := effCard env c
  let col := collectLabels lastCard.labels
  if col.1 then
    if thisCards.any (fun t => t.name == lastCard.name) then (0, updActs)
    else
      let allLabels := col.2 ++ [labels.yellow]
      let labelActs : List Action :=
        match env.copyResult lastCard.id with
        | some newId => allLabels.map (Action.addLabelReq newId)
        | none => []
      (1, updActs ++ [.copyReq thisId lastCard.name lastCard.desc lastCard.id] ++
        labelActs ++ [.addLabelReq lastCard.id labels.red])
  else (0, updActs)

/-- The whole lastCards loop of Trebis.updateCard: total cardCount and the
concatenated request trace. -/
def updateCardLoop (env : Env) (labels : LabelIds) (thisId : String)
    (thisCards : List TCard) (lastCards : List TCard) : Nat × List Action :=
  lastCards.foldl
    (fun acc c =>
      let r := processCard env labels thisId thisCards c
      (acc.1 + r.1, acc.2 ++ r.2))
    (0, [])

/-- The migration decision for one card: eligible by labels and not a
duplicate by name in today's list (computed on the effective card). -/
def migrateDecision (env : Env) (thisCards : List TCard) (c : TCard) : Bool :=
  (collectLabels (effCard env c).labels).1 &&
    !(thisCards.any (fun t => t.name == (effCard env c).name))

end Trebis

/-- The response of a successful update call preserves the card's identity,
name and labels (the board service returns the updated card; only the
description may have changed). -/
def Trebis.envPreserves (env : Trebis.Env) (c : TCard) : Prop :=
  ∀ d, env.updateResult c.id = some d → d.id = c.id ∧ d.name = c.name ∧ d.labels = c.labels

/-- The components a non-range date string is split into by TREBIS.getDate. -/
def dateParts (s : String) : List String :=
  let t := TREBIS.normDate s
  strSplitOnC t (if strContainsC t '.' then '.' else '-')

/-- Midnight timestamp of a Gregorian date (month 1-based), for stating
concrete expectations. -/
def tsOf (y m d : Int) : Int := daysFromCivil y m d * dayMs

instance {ε α : Type} [DecidableEq ε] [DecidableEq α] : DecidableEq (Except ε α)
  | .error e, .error f =>
    if h : e = f then .isTrue (h ▸ rfl) else .isFalse (fun hh => h (by cases hh; rfl))
  | .error _, .ok _ => .isFalse (fun hh => Except.noConfusion hh)
  | .ok _, .error _ => .isFalse (fun hh => Except.noConfusion hh)
  | .ok a, .ok b =>
    if h : a = b then .isTrue (h ▸ rfl) else .isFalse (fun hh => h (by cases hh; rfl))


theorem except_bind_ok {ε α β : Type} (x : α) (f : α → Except ε β) :
    (Except.ok (ε := ε) x >>= f) = f x := rfl

/-- getDateFrag does not depend on the ambient current year when the split
has at least three components (the year push never happens). -/
theorem getDateFrag_cy (cy cy' : Int) (s : String)
    (h : ((TREBIS.numList (strSplitOnC s (if strContainsC s '.' then '.' else '-'))).all
      (fun vals => decide (3 ≤ vals.length))) = true) :
    TREBIS.getDateFrag cy s = TREBIS.getDateFrag cy' s := by
  unfold TREBIS.getDateFrag
  cases hn : TREBIS.numList (strSplitOnC s (if strContainsC s '.' then '.' else '-')) with
  | none => simp [hn]
  | some vals =>
    rw [hn] at h
    simp only [Option.all_some, decide_eq_true_eq] at h
    have h3 : ¬ vals.length < 3 := by omega
    simp [hn, h3]

/-- getDate does not depend on the ambient current year for a non-range
string whose components include an explicit year. -/
theorem getDate_cy (cy cy' : Int) (s : String)
    (hr : (strContainsC (TREBIS.normDate s) '.' && strContainsC (TREBIS.normDate s) '-') = false)
    (h : ((TREBIS.numList (dateParts s)).all (fun vals => decide (3 ≤ vals.length))) = true) :
    TREBIS.getDate cy s = TREBIS.getDate cy' s := by
  unfold TREBIS.getDate
  rw [if_neg (by simp [hr]), if_neg (by simp [hr])]
  exact getDateFrag_cy cy cy' _ h

theorem statStepDate_cy (cy cy' : Int) (old : Option JSDate) (name : String)
    (h : TREBIS.getDate cy name = TREBIS.getDate cy' name) :
    Trebis.statStepDate cy old name = Trebis.statStepDate cy' old name := by
  unfold Trebis.statStepDate
  rw [h]

theorem statLoop_cy (cy cy' : Int) (sv ev : String) (sd ed : Option JSDate) :
    ∀ (ls : List TList) (b : Bool) (o : Option JSDate) (r : Trebis.Stat),
    (∀ l ∈ ls, TREBIS.getDate cy l.name = TREBIS.getDate cy' l.name) →
    Trebis.statLoop cy sv ev sd ed ls b o r = Trebis.statLoop cy' sv ev sd ed ls b o r := by
  intro ls
  induction ls with
  | nil => intro b o r _; rfl
  | cons head tail ih =>
    intro b o r h
    unfold Trebis.statLoop
    rw [statStepDate_cy cy cy' o head.name (h head (by simp))]
    cases hs : Trebis.statStepDate cy' o head.name with
    | error e => rfl
    | ok listDate =>
      simp only [except_bind_ok, bind, Except.bind]
      split
      · rfl
      · split
        · rfl
        · exact ih _ _ _ (fun l hl => h l (by simp [hl]))

theorem getStatistic_cy (cy cy' : Int) (ls : List TList) (sv ev : String)
    (hsv : TREBIS.getDate cy sv = TREBIS.getDate cy' sv)
    (hev : TREBIS.getDate cy ev = TREBIS.getDate cy' ev)
    (hl : ∀ l ∈ ls, TREBIS.getDate cy l.name = TREBIS.getDate cy' l.name) :
    Trebis.getStatistic cy ls sv ev = Trebis.getStatistic cy' ls sv ev := by
  unfold Trebis.getStatistic
  rw [hsv, hev]
  exact statLoop_cy cy cy' sv ev _ _ ls false none ⟨0, 0, 0, 0⟩ hl

/-- Claim C1: for lists named "10.01.24", "09.01.24", "08.01.24" (newest
first), each holding exactly one card with a single red label, the
statistics aggregation over start boundary "08.01.24" and end boundary
"10.01.24" counts all three boundary-inclusive lists and touches no other
counter: the result is {red := 3, yellow := 0, blue := 0, green := 0}, for
every ambient current year and all identifiers, card names and
descriptions. -/
theorem getStatistic_inclusive_red_range (cy : Int)
    (i1 i2 i3 cid1 cid2 cid3 cn1 cn2 cn3 cd1 cd2 cd3 l1 l2 l3 : String) :
    Trebis.getStatistic cy
      [⟨i1, "10.01.24", [⟨cid1, cn1, cd1, [⟨"red", l1⟩]⟩]⟩,
       ⟨i2, "09.01.24", [⟨cid2, cn2, cd2, [⟨"red", l2⟩]⟩]⟩,
       ⟨i3, "08.01.24", [⟨cid3, cn3, cd3, [⟨"red", l3⟩]⟩]⟩]
      "08.01.24" "10.01.24" = .ok ⟨3, 0, 0, 0⟩ := by
  rw [getStatistic_cy cy 2024 _ _ _
    (getDate_cy cy 2024 _ (by decide) (by decide))
    (getDate_cy cy 2024 _ (by decide) (by decide))
    ?_]
  · rfl
  · intro l hl
    simp only [List.mem_cons, List.not_mem_nil, or_false] at hl
    rcases hl with rfl | rfl | rfl
    · exact getDate_cy cy 2024 "10.01.24" (by decide) (by decide)
    · exact getDate_cy cy 2024 "09.01.24" (by decide) (by decide)
    · exact getDate_cy cy 2024 "08.01.24" (by decide) (by decide)

/-- Claim C2 counterexample: one yesterday card with no labels, an empty
today list, and an environment in which every card-creation call fails
(copyResult gives null for every card); the loop still returns a migrated
count of 1, although no creation succeeded, refuting the claim that the
count is incremented only on successful creation. -/
theorem updateCard_counts_failed_creation :
    (Trebis.updateCardLoop ⟨fun _ => none, fun _ => none⟩ ⟨"yel", "redid"⟩ "today"
      [] [⟨"c1", "task", "", []⟩]).1 = 1 := rfl

/-- Claim C3 counterexample: with previous resolved date 28 December 2024
and current list name "27.12" (two components, parsed to 27 December 2024),
the previous date IS chronologically after the current one, yet no year
decrement happens: the resolved date stays 27 December 2024 instead of the
27 December 2023 the claim's trigger condition would demand; the decrement
branch actually fires when the previous date is chronologically BEFORE the
current one. -/
theorem statStepDate_no_decrement_prev_after :
    Trebis.statStepDate 2024 (some (.valid (tsOf 2024 12 28))) "27.12"
        = .ok (some (.valid (tsOf 2024 12 27))) ∧
    Trebis.statStepDate 2024 (some (.valid (tsOf 2024 12 28))) "27.12"
        ≠ .ok (some (.valid (tsOf 2023 12 27))) := by
  refine ⟨by decide, by decide⟩

/-- Claim C7 counterexample: the single-component numeric string "21" does
not make getDate return null; the undefined-guard tests both of the first
two split entries and the first entry always exists, so parsing proceeds and
produces an Invalid Date object (truthy in JS), not null. -/
theorem getDate_single_component_not_null :
    TREBIS.getDate 2024 "21" = some JSDate.invalid ∧ TREBIS.getDate 2024 "21" ≠ none := by
  refine ⟨by decide, by decide⟩

/-- Claim C8 counterexample: getCorrectDate mutates the Date object passed
as the current date: with previous 5 January 2024 and current 28 December
2022 the half-year correction fires and the object's final state is
28 December 2024, not its original value. -/
theorem getCorrectDate_mutates_input :
    Trebis.getCorrectDate (some (.valid (tsOf 2024 1 5))) (some (.valid (tsOf 2022 12 28)))
        = .ok (some (.valid (tsOf 2024 12 28)), some (.valid (tsOf 2024 12 28))) ∧
    (Trebis.getCorrectDate (some (.valid (tsOf 2024 1 5))) (some (.valid (tsOf 2022 12 28)))).map
        Prod.snd ≠ .ok (some (.valid (tsOf 2022 12 28))) := by
  refine ⟨by decide, by decide⟩


/-- `difference * (difference < 0 ? -1 : 1)` is the absolute value. -/
theorem mulSign_natAbs (x : Int) : x * (if x < 0 then -1 else 1) = (x.natAbs : Int) := by
  by_cases h : x < 0
  · rw [if_pos h]; omega
  · rw [if_neg h]; omega

/-- Claim C3 (amended): with previous resolved date 5 January 2024 and list
name "28.12" parsed under current year 2024, the resolved date is
28 December 2023.  In general: whenever the absolute millisecond gap is at
least 15767993085, getCorrectDate forces the current date's year to the
previous date's year (mutating and returning the same object); and whenever
the previous date is chronologically BEFORE the already-corrected current
date (not after, as the claim put it) and the list name splits into fewer
than three components, the current date's year is set to the previous
date's year minus one. -/
theorem dateContinuity_correction_rules :
    (Trebis.statStepDate 2024 (some (.valid (tsOf 2024 1 5))) "28.12"
        = .ok (some (.valid (tsOf 2023 12 28)))) ∧
    (∀ t1 t2 : Int, (15767993085 : Nat) ≤ (t1 - t2).natAbs →
      Trebis.getCorrectDate (some (.valid t1)) (some (.valid t2)) =
        .ok (some (jsSetFullYear (.valid t2) (jsGetFullYear (.valid t1))),
             some (jsSetFullYear (.valid t2) (jsGetFullYear (.valid t1))))) ∧
    (∀ (name : String) (od dt : JSDate), jsLtO (some od) (some dt) = true →
      Trebis.splitLen name < 3 →
      Trebis.statDateFix name (some od) (some dt) =
        .ok (some (jsSetFullYear dt ((jsGetFullYear od).map (· - 1))))) := by
  refine ⟨by decide, ?_, ?_⟩
  · intro t1 t2 h
    unfold Trebis.getCorrectDate
    rw [if_neg (by simp)]
    simp only [jsDateNum]
    split
    · rfl
    · rename_i hcond
      exact absurd
        (show Trebis.thresholdHit
            (some ((t1 - t2) * if (t1 - t2) < 0 then -1 else 1)) = true by
          rw [mulSign_natAbs]
          simp only [Trebis.thresholdHit, decide_eq_true_eq]
          exact_mod_cast h) hcond
  · intro name od dt hlt hsplit
    simp only [Trebis.statDateFix]
    rw [if_pos hlt, if_pos hsplit]

/-- Witness for the amended claim C3 rules at a concrete input. -/
theorem dateContinuity_correction_rules_witness :
    (15767993085 : Nat) ≤ ((tsOf 2024 1 5) - (tsOf 2024 12 28)).natAbs ∧
    Trebis.getCorrectDate (some (.valid (tsOf 2024 1 5))) (some (.valid (tsOf 2024 12 28))) =
      .ok (some (jsSetFullYear (.valid (tsOf 2024 12 28)) (jsGetFullYear (.valid (tsOf 2024 1 5)))),
           some (jsSetFullYear (.valid (tsOf 2024 12 28)) (jsGetFullYear (.valid (tsOf 2024 1 5))))) :=
  ⟨by decide, dateContinuity_correction_rules.2.1 (tsOf 2024 1 5) (tsOf 2024 12 28) (by decide)⟩


/-- Claim C8 (amended): getCorrectDate does not produce a fresh corrected
copy; it returns the very object it received as the current date
(`const date = thisDate`), so the returned value is always the final state
of the caller's object, and the object is left unchanged exactly on the
runs where the half-year correction does not fire (gap below the
threshold). -/
theorem getCorrectDate_returns_mutated_input :
    (∀ (oldDate curDate : Option JSDate) (r : Option JSDate × Option JSDate),
      Trebis.getCorrectDate oldDate curDate = .ok r → r.1 = r.2) ∧
    (∀ t1 t2 : Int, (t1 - t2).natAbs < 15767993085 →
      Trebis.getCorrectDate (some (.valid t1)) (some (.valid t2)) =
        .ok (some (.valid t2), some (.valid t2))) := by
  constructor
  · intro oldDate curDate r h
    unfold Trebis.getCorrectDate at h
    dsimp only at h
    split at h
    · injection h with h₁; rw [← h₁]
    · split at h
      · split at h
        · injection h with h₁; rw [← h₁]
        · exact Except.noConfusion h
      · injection h with h₁; rw [← h₁]
  · intro t1 t2 h
    unfold Trebis.getCorrectDate
    rw [if_neg (by simp)]
    simp only [jsDateNum]
    split
    · rename_i hcond
      exact absurd hcond (by
        show ¬ Trebis.thresholdHit
            (some ((t1 - t2) * if (t1 - t2) < 0 then -1 else 1)) = true
        rw [mulSign_natAbs]
        simp only [Trebis.thresholdHit, decide_eq_true_eq]
        omega)
    · rfl

/-- Witness for the amended claim C8 at a concrete below-threshold input. -/
theorem getCorrectDate_returns_mutated_input_witness :
    ((0 : Int) - 0).natAbs < 15767993085 ∧
    Trebis.getCorrectDate (some (.valid 0)) (some (.valid 0)) =
      .ok (some (.valid 0), some (.valid 0)) :=
  ⟨by decide, getCorrectDate_returns_mutated_input.2 0 0 (by decide)⟩

/-- A NaN component makes the Number-conversion loop fail. -/
theorem numList_none {l : List String} (h : ∃ p ∈ l, jsNumber p = none) :
    TREBIS.numList l = none := by
  induction l with
  | nil => simp at h
  | cons p ps ih =>
    rcases h with ⟨q, hq, hnone⟩
    rcases List.mem_cons.mp hq with rfl | hmem
    · simp [TREBIS.numList, hnone]
    · unfold TREBIS.numList
      cases hjp : jsNumber p
      · rfl
      · rw [ih ⟨q, hmem, hnone⟩]
        rfl

/-- Claim C7 (amended): on the non-range path, getDate returns null whenever
some component is non-numeric (NaN under Number conversion); but an input
whose first two components are not both present, such as the
single-component string "21", yields an Invalid Date object rather than
null, because the missing-component guard requires both of the first two
split entries to be undefined and the first entry of a split always
exists. -/
theorem getDate_null_on_nonNumeric :
    (∀ (cy : Int) (s : String),
      (strContainsC (TREBIS.normDate s) '.' && strContainsC (TREBIS.normDate s) '-') = false →
      (∃ p ∈ dateParts s, jsNumber p = none) →
      TREBIS.getDate cy s = none) ∧
    TREBIS.getDate 2024 "21" = some JSDate.invalid := by
  constructor
  · intro cy s hr h
    unfold TREBIS.getDate
    rw [if_neg (by simp [hr])]
    unfold TREBIS.getDateFrag
    unfold dateParts at h
    dsimp only at h ⊢
    by_cases hsep : strContainsC (TREBIS.normDate s) '.' = true
    · rw [if_pos hsep] at h ⊢
      by_cases hg : (strSplitOnC (TREBIS.normDate s) '.').get? 0 = none ∧
          (strSplitOnC (TREBIS.normDate s) '.').get? 1 = none
      · rw [if_pos hg]
      · rw [if_neg hg, numList_none h]
    · rw [if_neg hsep] at h ⊢
      by_cases hg : (strSplitOnC (TREBIS.normDate s) '-').get? 0 = none ∧
          (strSplitOnC (TREBIS.normDate s) '-').get? 1 = none
      · rw [if_pos hg]
      · rw [if_neg hg, numList_none h]
  · decide

/-- Witness for the amended claim C7 at the concrete input "ab". -/
theorem getDate_null_on_nonNumeric_witness :
    (strContainsC (TREBIS.normDate "ab") '.' && strContainsC (TREBIS.normDate "ab") '-') = false ∧
    (∃ p ∈ dateParts "ab", jsNumber p = none) ∧
    TREBIS.getDate 2024 "ab" = none :=
  ⟨by decide, by decide, getDate_null_on_nonNumeric.1 2024 "ab" (by decide) (by decide)⟩

/-- The `if (date) res = date` accumulation over the fragments keeps the
last successful parse, i.e. the first success of the reversed list. -/
theorem foldl_lastParse (g : String → Option JSDate) :
    ∀ (l : List String) (init : Option JSDate),
    l.foldl (fun res frag => match g frag with | none => res | some d => some d) init
      = (l.reverse.findSome? g).or init := by
  intro l
  induction l with
  | nil => intro init; simp [List.findSome?]
  | cons p ps ih =>
    intro init
    rw [List.foldl_cons, ih, List.reverse_cons, List.findSome?_append]
    cases hps : ps.reverse.findSome? g with
    | some d => rfl
    | none =>
      cases hgp : g p <;> simp [List.findSome?, hgp, Option.or]

/-- The range path of getDate: split on '-' and take the last fragment that
parses to a truthy value. -/
theorem getDate_range_eq (cy : Int) (s : String)
    (hr : (strContainsC (TREBIS.normDate s) '.' && strContainsC (TREBIS.normDate s) '-') = true) :
    TREBIS.getDate cy s =
      ((strSplitOnC (TREBIS.normDate s) '-').reverse).findSome? (TREBIS.getDateFrag cy) := by
  unfold TREBIS.getDate
  rw [if_pos hr, foldl_lastParse, Option.or_none]

/-- Claim C6: for a text containing (after comma/slash normalization) both
'.' and '-', getDate splits on '-' and returns the result of the last
fragment whose own parse is truthy, skipping failed fragments; concretely,
parsing "21.03-25.03.2024" and "bad-25.03.2024" both give 25 March 2024
under every ambient current year, so a failed fragment never makes the
whole range fail. -/
theorem getDate_range_collapse :
    (∀ (cy : Int) (s : String),
      (strContainsC (TREBIS.normDate s) '.' && strContainsC (TREBIS.normDate s) '-') = true →
      TREBIS.getDate cy s =
        ((strSplitOnC (TREBIS.normDate s) '-').reverse).findSome? (TREBIS.getDateFrag cy)) ∧
    (∀ cy : Int, TREBIS.getDate cy "21.03-25.03.2024" = some (.valid (tsOf 2024 3 25))) ∧
    (∀ cy : Int, TREBIS.getDate cy "bad-25.03.2024" = some (.valid (tsOf 2024 3 25))) := by
  refine ⟨getDate_range_eq, ?_, ?_⟩
  · intro cy
    have h1 : TREBIS.getDateFrag cy "25.03.2024" = some (.valid (tsOf 2024 3 25)) := by
      rw [getDateFrag_cy cy 2024 "25.03.2024" (by decide)]
      decide
    rw [getDate_range_eq cy _ (by decide),
      show (strSplitOnC (TREBIS.normDate "21.03-25.03.2024") '-').reverse
        = ["25.03.2024", "21.03"] from by decide,
      List.findSome?_cons_of_isSome _ (by rw [h1]; rfl)]
    exact h1
  · intro cy
    have h1 : TREBIS.getDateFrag cy "25.03.2024" = some (.valid (tsOf 2024 3 25)) := by
      rw [getDateFrag_cy cy 2024 "25.03.2024" (by decide)]
      decide
    rw [getDate_range_eq cy _ (by decide),
      show (strSplitOnC (TREBIS.normDate "bad-25.03.2024") '-').reverse
        = ["25.03.2024", "bad"] from by decide,
      List.findSome?_cons_of_isSome _ (by rw [h1]; rfl)]
    exact h1

/-- Witness for claim C6 at the concrete range input. -/
theorem getDate_range_collapse_witness :
    ((strContainsC (TREBIS.normDate "21.03-25.03.2024") '.' &&
      strContainsC (TREBIS.normDate "21.03-25.03.2024") '-') = true) ∧
    TREBIS.getDate 2024 "21.03-25.03.2024" =
      ((strSplitOnC (TREBIS.normDate "21.03-25.03.2024") '-').reverse).findSome?
        (TREBIS.getDateFrag 2024) :=
  ⟨by decide, getDate_range_collapse.1 2024 "21.03-25.03.2024" (by decide)⟩

/-- The probe counter of the backward search never exceeds the fuel. -/
theorem searchGo_probes_le (cy now : Int) (lists : List TList) :
    ∀ (fuel day : Nat), (Trebis.searchGo cy now lists day fuel).2 ≤ fuel := by
  intro fuel
  induction fuel with
  | zero => intro day; simp [Trebis.searchGo]
  | succ n ih =>
    intro day
    unfold Trebis.searchGo
    dsimp only
    split
    · simp
    · have := ih (day + 1)
      simp only []
      omega

/-- When no probe within the remaining window succeeds, the search exhausts
its window, probing once per day, and ends with a null list id. -/
theorem searchGo_none (cy now : Int) (lists : List TList) :
    ∀ (fuel day : Nat), day + fuel = 26 →
    (∀ d : Nat, day ≤ d → d ≤ 25 →
      Trebis.getListId cy lists (TREBIS.date (now - TREBIS.getDayInSec d)) = none) →
    Trebis.searchGo cy now lists day fuel = (none, fuel) := by
  intro fuel
  induction fuel with
  | zero => intro day _ _; rfl
  | succ n ih =>
    intro day hday h
    have hp : Trebis.getListId cy lists (TREBIS.date (now - TREBIS.getDayInSec day)) = none :=
      h day (Nat.le_refl day) (by omega)
    unfold Trebis.searchGo
    dsimp only
    rw [hp]
    by_cases h25 : day + 1 > 25
    · have hn : n = 0 := by omega
      subst hn
      simp [h25]
    · rw [if_neg (by simp [h25, hp])]
      rw [ih (day + 1) (by omega) (fun d hd hd25 => h d (by omega) hd25)]

/-- The search stops at the first matching day, having probed exactly that
many times. -/
theorem searchGo_first (cy now : Int) (lists : List TList) :
    ∀ (fuel day d₀ : Nat) (r : TListId), day + fuel = 26 → day ≤ d₀ → d₀ ≤ 25 →
    (∀ d : Nat, day ≤ d → d < d₀ →
      Trebis.getListId cy lists (TREBIS.date (now - TREBIS.getDayInSec d)) = none) →
    Trebis.getListId cy lists (TREBIS.date (now - TREBIS.getDayInSec d₀)) = some r →
    Trebis.searchGo cy now lists day fuel = (some r, d₀ - day + 1) := by
  intro fuel
  induction fuel with
  | zero => intro day d₀ r hday hle h25 _ _; omega
  | succ n ih =>
    intro day d₀ r hday hle h25 hnone hsome
    unfold Trebis.searchGo
    dsimp only
    by_cases hd : day = d₀
    · subst hd
      rw [hsome]
      rw [if_pos (by simp)]
      simp
    · have hlt : day < d₀ := by omega
      have hp : Trebis.getListId cy lists (TREBIS.date (now - TREBIS.getDayInSec day)) = none :=
        hnone day (Nat.le_refl day) hlt
      rw [hp]
      rw [if_neg (by simp; omega)]
      rw [ih (day + 1) d₀ r (by omega) (by omega) h25
        (fun d hd1 hd2 => hnone d (by omega) hd2) hsome]
      have : d₀ - (day + 1) + 1 + 1 = d₀ - day + 1 := by omega
      simp [this]

/-- Claim C9: the backward do-while of initListId probes the formatted date
of each of the 25 days preceding now, starting from yesterday; when no list
matches any of them it terminates after exactly 25 probes leaving the
yesterday-list id null; it stops at the first matching day when one exists;
and it never makes more than 25 probes. -/
theorem initListId_bounded_search :
    (∀ (cy now : Int) (lists : List TList),
      (∀ d : Nat, 1 ≤ d → d ≤ 25 →
        Trebis.getListId cy lists (TREBIS.date (now - TREBIS.getDayInSec d)) = none) →
      Trebis.initListIdSearch cy now lists = (none, 25)) ∧
    (∀ (cy now : Int) (lists : List TList) (d₀ : Nat) (r : TListId), 1 ≤ d₀ → d₀ ≤ 25 →
      (∀ d : Nat, 1 ≤ d → d < d₀ →
        Trebis.getListId cy lists (TREBIS.date (now - TREBIS.getDayInSec d)) = none) →
      Trebis.getListId cy lists (TREBIS.date (now - TREBIS.getDayInSec d₀)) = some r →
      Trebis.initListIdSearch cy now lists = (some r, d₀)) ∧
    (∀ (cy now : Int) (lists : List TList), (Trebis.initListIdSearch cy now lists).2 ≤ 25) := by
  refine ⟨?_, ?_, ?_⟩
  · intro cy now lists h
    exact searchGo_none cy now lists 25 1 (by omega) h
  · intro cy now lists d₀ r h1 h25 hnone hsome
    have := searchGo_first cy now lists 25 1 d₀ r (by omega) h1 h25 hnone hsome
    rw [Trebis.initListIdSearch, this]
    have : d₀ - 1 + 1 = d₀ := by omega
    rw [this]
  · intro cy now lists
    exact searchGo_probes_le cy now lists 25 1

/-- Witness for claim C9: over an empty list collection nothing matches, so
the search returns null after exactly 25 probes. -/
theorem initListId_bounded_search_witness :
    Trebis.initListIdSearch 2024 0 [] = (none, 25) :=
  initListId_bounded_search.1 2024 0 [] (fun _ _ _ => rfl)

/-- The effective card inspected after the conditional update call keeps the
identity, name and labels of the original when the environment's update
responses preserve them. -/
theorem effCard_preserves (env : Trebis.Env) (c : TCard) (hpres : Trebis.envPreserves env c) :
    (Trebis.effCard env c).id = c.id ∧ (Trebis.effCard env c).name = c.name ∧
    (Trebis.effCard env c).labels = c.labels := by
  unfold Trebis.effCard
  split
  · cases hu : env.updateResult c.id with
    | none => exact ⟨rfl, rfl, rfl⟩
    | some d => exact hpres d hu
  · exact ⟨rfl, rfl, rfl⟩

/-- The per-card count increment is exactly the migration decision. -/
theorem processCard_fst (env : Trebis.Env) (labels : Trebis.LabelIds) (thisId : String)
    (thisCards : List TCard) (c : TCard) :
    (Trebis.processCard env labels thisId thisCards c).1
      = if Trebis.migrateDecision env thisCards c then 1 else 0 := by
  unfold Trebis.processCard Trebis.migrateDecision
  dsimp only
  by_cases hcol : (Trebis.collectLabels (Trebis.effCard env c).labels).1 = true
  · by_cases hdup : (thisCards.any fun t => t.name == (Trebis.effCard env c).name) = true
    · simp [hcol, hdup]
    · simp [hcol, hdup]
  · simp [hcol]

/-- Folding the loop body accumulates one count per positive decision. -/
theorem updateCardLoop_countGo (env : Trebis.Env) (labels : Trebis.LabelIds) (thisId : String)
    (thisCards : List TCard) :
    ∀ (cards : List TCard) (acc : Nat × List Trebis.Action),
    (cards.foldl (fun acc c =>
        let r := Trebis.processCard env labels thisId thisCards c
        (acc.1 + r.1, acc.2 ++ r.2)) acc).1
      = acc.1 + cards.countP (Trebis.migrateDecision env thisCards) := by
  intro cards
  induction cards with
  | nil => intro acc; simp
  | cons c cs ih =>
    intro acc
    rw [List.foldl_cons, List.countP_cons]
    dsimp only
    rw [ih, processCard_fst]
    by_cases h : Trebis.migrateDecision env thisCards c = true
    · simp only [h, if_true]
      omega
    · simp only [h, if_false]
      omega

/-- Claim C2 (amended): the migrated count returned by the updateCard loop
equals the number of cards for which migration is decided (eligible by
labels and not a name-duplicate), regardless of whether the creation calls
succeed: it coincides with the count obtained when every copyCard call
fails.  One failed card never blocks the processing of the rest, but the
count is incremented for the failed card too. -/
theorem updateCard_count_attempts (env : Trebis.Env) (labels : Trebis.LabelIds)
    (thisId : String) (thisCards lastCards : List TCard) :
    (Trebis.updateCardLoop env labels thisId thisCards lastCards).1
      = lastCards.countP (Trebis.migrateDecision env thisCards) ∧
    (Trebis.updateCardLoop env labels thisId thisCards lastCards).1
      = (Trebis.updateCardLoop ⟨env.updateResult, fun _ => none⟩ labels
          thisId thisCards lastCards).1 := by
  constructor
  · have h := updateCardLoop_countGo env labels thisId thisCards lastCards (0, [])
    unfold Trebis.updateCardLoop
    rw [h]
    omega
  · have h1 := updateCardLoop_countGo env labels thisId thisCards lastCards (0, [])
    have h2 := updateCardLoop_countGo ⟨env.updateResult, fun _ => none⟩ labels thisId
      thisCards lastCards (0, [])
    unfold Trebis.updateCardLoop
    rw [h1, h2]
    rfl

/-- Every element of the conditional update-request list is an update
request. -/
theorem mem_updActs {a : Trebis.Action} {cardId cardName cardDesc : String} {b : Bool}
    (h : a ∈ (if b then [Trebis.Action.updateReq cardId cardName cardDesc] else [])) :
    a.isUpdateReq = true := by
  split at h
  · simp at h
    subst h
    rfl
  · simp at h

/-- Claim C5: when today's list already contains a card with the same name
as the processed yesterday card (and the update response, if any, preserves
the card), no new card is created for it and the count is not incremented:
the per-card result is count 0 with no request other than the optional
description update.  The comparison is on card names only. -/
theorem processCard_duplicate_skip (env : Trebis.Env) (labels : Trebis.LabelIds)
    (thisId : String) (thisCards : List TCard) (c : TCard)
    (hpres : Trebis.envPreserves env c)
    (hdup : ∃ t ∈ thisCards, t.name = c.name) :
    (Trebis.processCard env labels thisId thisCards c).1 = 0 ∧
    ∀ a ∈ (Trebis.processCard env labels thisId thisCards c).2, a.isUpdateReq = true := by
  have hname : (Trebis.effCard env c).name = c.name := (effCard_preserves env c hpres).2.1
  have hany : (thisCards.any fun t => t.name == (Trebis.effCard env c).name) = true := by
    rcases hdup with ⟨t, ht, hn⟩
    exact List.any_eq_true.mpr ⟨t, ht, by simp [hname, hn]⟩
  unfold Trebis.processCard
  dsimp only
  by_cases hcol : (Trebis.collectLabels (Trebis.effCard env c).labels).1 = true
  · rw [if_pos hcol, if_pos hany]
    exact ⟨rfl, fun a ha => mem_updActs ha⟩
  · rw [if_neg hcol]
    exact ⟨rfl, fun a ha => mem_updActs ha⟩

/-- Witness for claim C5: today's list already holds a card named "task". -/
theorem processCard_duplicate_skip_witness :
    (Trebis.processCard ⟨fun _ => none, fun _ => some "new1"⟩ ⟨"yel", "redid"⟩ "today"
      [⟨"t1", "task", "", []⟩] ⟨"c1", "task", "", []⟩).1 = 0 :=
  (processCard_duplicate_skip ⟨fun _ => none, fun _ => some "new1"⟩ ⟨"yel", "redid"⟩ "today"
    [⟨"t1", "task", "", []⟩] ⟨"c1", "task", "", []⟩
    (fun d h => Option.noConfusion h)
    ⟨⟨"t1", "task", "", []⟩, by simp, rfl⟩).1

/-- A green or blue label anywhere in the list makes the scan bail out with
no card to add and no collected labels. -/
theorem collectLabels_greenBlue {ls : List TLabel}
    (h : ∃ l ∈ ls, l.color = "green" ∨ l.color = "blue") :
    Trebis.collectLabels ls = (false, []) := by
  induction ls with
  | nil => simp at h
  | cons l ls ih =>
    rcases h with ⟨q, hq, hcol⟩
    rcases List.mem_cons.mp hq with rfl | hmem
    · unfold Trebis.collectLabels
      rw [if_pos (by rcases hcol with h | h <;> simp [h])]
    · unfold Trebis.collectLabels
      rw [ih ⟨q, hmem, hcol⟩]
      by_cases hc : (l.color == "green" || l.color == "blue") = true
      · rw [if_pos hc]
      · rw [if_neg hc]

/-- Claim C4: (provided the update response, if any, preserves the card's
identity, name and labels) a yesterday card carrying any green or blue
label is never migrated and contributes no carried-over labels (its only
possible request is the description update); and a card bearing exactly one
red label, with no same-named card in today's list and a successful
creation returning a fresh id, is migrated with count 1, a copy request
carrying its name and source id is issued, the new card receives exactly
the yellow label (the red label is not carried over), and red is re-applied
to the original card. -/
theorem processCard_label_gate (env : Trebis.Env) (labels : Trebis.LabelIds) (thisId : String)
    (thisCards : List TCard) (c : TCard) (hpres : Trebis.envPreserves env c) :
    ((∃ l ∈ c.labels, l.color = "green" ∨ l.color = "blue") →
      (Trebis.processCard env labels thisId thisCards c).1 = 0 ∧
      ∀ a ∈ (Trebis.processCard env labels thisId thisCards c).2, a.isUpdateReq = true) ∧
    (∀ (rid newId : String), c.labels = [⟨"red", rid⟩] →
      (∀ t ∈ thisCards, t.name ≠ c.name) →
      env.copyResult c.id = some newId → newId ≠ c.id →
      (Trebis.processCard env labels thisId thisCards c).1 = 1 ∧
      (∃ d, Trebis.Action.copyReq thisId c.name d c.id
          ∈ (Trebis.processCard env labels thisId thisCards c).2) ∧
      ((Trebis.processCard env labels thisId thisCards c).2.filterMap (fun a =>
        match a with
        | Trebis.Action.addLabelReq i l => if i = newId then some l else none
        | _ => none)) = [labels.yellow] ∧
      Trebis.Action.addLabelReq c.id labels.red
        ∈ (Trebis.processCard env labels thisId thisCards c).2) := by
  constructor
  · intro hgb
    have hcol : (Trebis.collectLabels (Trebis.effCard env c).labels).1 = false := by
      rw [(effCard_preserves env c hpres).2.2, collectLabels_greenBlue hgb]
    unfold Trebis.processCard
    dsimp only
    rw [if_neg (by simp [hcol])]
    exact ⟨rfl, fun a ha => mem_updActs ha⟩
  · intro rid newId hlab hnodup hcopy hne
    obtain ⟨hid, hname, hlabels⟩ := effCard_preserves env c hpres
    have hl2 : (Trebis.effCard env c).labels = [⟨"red", rid⟩] := by rw [hlabels, hlab]
    cases hE : Trebis.effCard env c with
    | mk eid ename edesc elabels =>
      rw [hE] at hid hname hl2
      dsimp only at hid hname hl2
      subst hid
      subst hname
      subst hl2
      have hany : (thisCards.any fun t => t.name == c.name) = false := by
        rw [List.any_eq_false]
        intro t ht
        simp [hnodup t ht]
      unfold Trebis.processCard
      rw [hE]
      dsimp only
      rw [show Trebis.collectLabels [({ color := "red", id := rid } : TLabel)]
          = (true, []) from rfl]
      dsimp only
      rw [if_pos rfl, if_neg (by simp [hany]), hcopy]
      refine ⟨rfl, ⟨edesc, by simp⟩, ?_, by simp⟩
      simp [List.filterMap_append, List.filterMap_cons, hne, Ne.symm hne]

/-- Witness for claim C4 at a concrete red-only card with a successful
creation. -/
theorem processCard_label_gate_witness :
    (Trebis.processCard ⟨fun _ => none, fun _ => some "new1"⟩ ⟨"yel", "redid"⟩ "today" []
      ⟨"c1", "task", "", [⟨"red", "rl"⟩]⟩).1 = 1 ∧
    ((Trebis.processCard ⟨fun _ => none, fun _ => some "new1"⟩ ⟨"yel", "redid"⟩ "today" []
      ⟨"c1", "task", "", [⟨"red", "rl"⟩]⟩).2.filterMap (fun a =>
        match a with
        | Trebis.Action.addLabelReq i l => if i = "new1" then some l else none
        | _ => none)) = ["yel"] ∧
    Trebis.Action.addLabelReq "c1" "redid"
      ∈ (Trebis.processCard ⟨fun _ => none, fun _ => some "new1"⟩ ⟨"yel", "redid"⟩ "today" []
        ⟨"c1", "task", "", [⟨"red", "rl"⟩]⟩).2 := by
  obtain ⟨h1, h2, h3, h4⟩ :=
    (processCard_label_gate ⟨fun _ => none, fun _ => some "new1"⟩ ⟨"yel", "redid"⟩ "today" []
      ⟨"c1", "task", "", [⟨"red", "rl"⟩]⟩ (fun d h => Option.noConfusion h)).2
      "rl" "new1" rfl (by simp) rfl (by decide)
  exact ⟨h1, h3, h4⟩

theorem linkFold_absorb (toks : List String) :
    ∀ st : String × Bool, st.2 = true → (toks.foldl Trebis.linkStepF st).2 = true := by
  induction toks with
  | nil => intro st h; exact h
  | cons t ts ih =>
    intro st h
    rw [List.foldl_cons]
    apply ih
    unfold Trebis.linkStepF
    split
    · rfl
    · exact h

theorem linkFold_flag (toks : List String) :
    ∀ d : String, ((toks.foldl Trebis.linkStepF (d, false)).2 = true) ↔
      ∃ tok ∈ toks, TREBIS.isLink tok = true ∧ strIncludes d tok = false := by
  induction toks with
  | nil => intro d; simp
  | cons t ts ih =>
    intro d
    rw [List.foldl_cons]
    by_cases hf : (TREBIS.isLink t && !strIncludes d t) = true
    · have h1 : Trebis.linkStepF (d, false) t = (Trebis.linkLine t ++ d, true) := by
        unfold Trebis.linkStepF
        rw [if_pos hf]
      rw [h1]
      simp only [Bool.and_eq_true, Bool.not_eq_true'] at hf
      constructor
      · intro _
        exact ⟨t, by simp, hf.1, hf.2⟩
      · intro _
        exact linkFold_absorb ts _ rfl
    · have h1 : Trebis.linkStepF (d, false) t = (d, false) := by
        unfold Trebis.linkStepF
        rw [if_neg hf]
      rw [h1, ih d]
      constructor
      · rintro ⟨tok, hm, hl, hi⟩
        exact ⟨tok, by simp [hm], hl, hi⟩
      · rintro ⟨tok, hm, hl, hi⟩
        rcases List.mem_cons.mp hm with rfl | hmem
        · exact absurd (by simp [hl, hi]) hf
        · exact ⟨tok, hmem, hl, hi⟩

theorem buildLinkDesc_flag (name desc : String) :
    ((Trebis.buildLinkDesc name desc).2 = true) ↔
      ∃ tok ∈ strSplitOnC name ' ', TREBIS.isLink tok = true ∧ strIncludes desc tok = false := by
  unfold Trebis.buildLinkDesc
  by_cases hn : (name == "") = true
  · rw [if_pos hn]
    have hname : name = "" := by simpa using hn
    subst hname
    constructor
    · intro h
      exact absurd h (by simp)
    · rintro ⟨tok, hm, hl, _⟩
      have htok : tok = "" := by
        rw [show strSplitOnC "" ' ' = [""] from rfl] at hm
        simpa using hm
      subst htok
      exact absurd hl (by decide)
  · rw [if_neg hn]
    exact linkFold_flag _ desc

theorem effCard_no_link (env : Trebis.Env) (c : TCard)
    (h : ¬ (Trebis.buildLinkDesc c.name c.desc).2 = true) :
    Trebis.effCard env c = c := by
  unfold Trebis.effCard
  rw [if_neg h]

/-- Claim C10: the external update-card request rewriting a yesterday
card's description is issued if and only if the card's name contains a
whitespace-delimited URL-like token not already present in its description;
when there is no such token, no request issued for the card is an update
request (its stored description is untouched) and any copy request issued
for it still carries the original name, description and source id (the card
may still be migrated). -/
theorem processCard_link_update_iff (env : Trebis.Env) (labels : Trebis.LabelIds)
    (thisId : String) (thisCards : List TCard) (c : TCard) :
    ((∃ n d, Trebis.Action.updateReq c.id n d
        ∈ (Trebis.processCard env labels thisId thisCards c).2) ↔
      ∃ tok ∈ strSplitOnC c.name ' ', TREBIS.isLink tok = true ∧
        strIncludes c.desc tok = false) ∧
    ((¬ ∃ tok ∈ strSplitOnC c.name ' ', TREBIS.isLink tok = true ∧
        strIncludes c.desc tok = false) →
      (∀ a ∈ (Trebis.processCard env labels thisId thisCards c).2, a.isUpdateReq = false) ∧
      (∀ idList n d cid, Trebis.Action.copyReq idList n d cid
          ∈ (Trebis.processCard env labels thisId thisCards c).2 →
        n = c.name ∧ d = c.desc ∧ cid = c.id)) := by
  by_cases hupd : (Trebis.buildLinkDesc c.name c.desc).2 = true
  · have hrhs := (buildLinkDesc_flag c.name c.desc).mp hupd
    constructor
    · refine iff_of_true ?_ hrhs
      refine ⟨c.name, (Trebis.buildLinkDesc c.name c.desc).1, ?_⟩
      unfold Trebis.processCard
      dsimp only
      rw [if_pos hupd]
      by_cases hcol : (Trebis.collectLabels (Trebis.effCard env c).labels).1 = true
      · rw [if_pos hcol]
        by_cases hany : (thisCards.any fun t => t.name == (Trebis.effCard env c).name) = true
        · rw [if_pos hany]
          simp
        · rw [if_neg hany]
          simp
      · rw [if_neg hcol]
        simp
    · intro hno
      exact absurd hrhs hno
  · have hrhs : ¬ ∃ tok ∈ strSplitOnC c.name ' ', TREBIS.isLink tok = true ∧
        strIncludes c.desc tok = false := fun h => hupd ((buildLinkDesc_flag c.name c.desc).mpr h)
    have heff := effCard_no_link env c hupd
    have hacts : ∀ a ∈ (Trebis.processCard env labels thisId thisCards c).2,
        a.isUpdateReq = false ∧
        (∀ idList n d cid, a = Trebis.Action.copyReq idList n d cid →
          n = c.name ∧ d = c.desc ∧ cid = c.id) := by
      intro a ha
      unfold Trebis.processCard at ha
      dsimp only at ha
      rw [if_neg hupd, heff] at ha
      by_cases hcol : (Trebis.collectLabels c.labels).1 = true
      · rw [if_pos hcol] at ha
        by_cases hany : (thisCards.any fun t => t.name == c.name) = true
        · rw [if_pos hany] at ha
          simp at ha
        · rw [if_neg hany] at ha
          cases hcp : env.copyResult c.id with
          | none =>
            rw [hcp] at ha
            simp only [List.nil_append, List.mem_append, List.mem_singleton,
              List.not_mem_nil, or_false, false_or] at ha
            rcases ha with rfl | rfl
            · refine ⟨rfl, fun idList n d cid he => ?_⟩
              injection he with e1 e2 e3 e4
              exact ⟨e2.symm, e3.symm, e4.symm⟩
            · exact ⟨rfl, fun _ _ _ _ he => Trebis.Action.noConfusion he⟩
          | some newId =>
            rw [hcp] at ha
            simp only [List.nil_append, List.mem_append, List.mem_singleton,
              List.mem_map, List.not_mem_nil, or_false, false_or] at ha
            rcases ha with (rfl | ⟨l, hl, rfl⟩) | rfl
            · refine ⟨rfl, fun idList n d cid he => ?_⟩
              injection he with e1 e2 e3 e4
              exact ⟨e2.symm, e3.symm, e4.symm⟩
            · exact ⟨rfl, fun _ _ _ _ he => Trebis.Action.noConfusion he⟩
            · exact ⟨rfl, fun _ _ _ _ he => Trebis.Action.noConfusion he⟩
      · rw [if_neg hcol] at ha
        simp at ha
    constructor
    · constructor
      · rintro ⟨n, d, hmem⟩
        exact absurd ((hacts _ hmem).1) (by simp [Trebis.Action.isUpdateReq])
      · intro h
        exact absurd h hrhs
    · intro _
      exact ⟨fun a ha => (hacts a ha).1, fun idList n d cid hmem => (hacts _ hmem).2 idList n d cid rfl⟩

/-- Witness for claim C10: a card with no link token in its name triggers
no update request, and its copy request carries the original fields. -/
theorem processCard_link_update_iff_witness :
    (∀ a ∈ (Trebis.processCard ⟨fun _ => none, fun _ => some "n1"⟩ ⟨"yel", "redid"⟩ "today" []
        ⟨"c1", "task", "hello", []⟩).2, a.isUpdateReq = false) ∧
    (∀ idList n d cid, Trebis.Action.copyReq idList n d cid
        ∈ (Trebis.processCard ⟨fun _ => none, fun _ => some "n1"⟩ ⟨"yel", "redid"⟩ "today" []
          ⟨"c1", "task", "hello", []⟩).2 →
      n = "task" ∧ d = "hello" ∧ cid = "c1") :=
  (processCard_link_update_iff ⟨fun _ => none, fun _ => some "n1"⟩ ⟨"yel", "redid"⟩ "today" []
    ⟨"c1", "task", "hello", []⟩).2 (by decide)
